import Mathlib

/-!
Shallow embedding of `src/optir.rs` (the OPTIR layer of the sawblade
compiler): the binding/usage bucket data model, the per-block HLIR
translation engine, the whole-program CFG assembly, and the fixed-point
return-count solver.  Rust machine indices (`usize`, `u64`) carry no
arithmetic in this module, so they are modelled as `Nat`; fallible code
paths (`HashMap` lookups that panic on a missing key, `todo!()`,
`unreachable!()`, out-of-range slice indexing) are modelled as `Option`
with `none` for the panic.  `HashMap`s are modelled by their lookup
semantics (association lists with most-recent-first lookup, or lookup
functions for the dense-key branching maps); `HashSet`-valued entries are
modelled as `Finset`.  The Rust solver loop has no termination guarantee,
so it is embedded with an explicit fuel parameter: `none` means the loop
either panicked or did not finish within the given fuel.
-/

namespace hlir

/-- Modelled from the spec: HLIR pure values (src/hlir.rs is not part of
this source tree; the shape is pinned by `Constant::try_from` and the
matches in optir.rs): a reference to an HLIR binding, a label reference,
or a literal constant. -/
inductive Pure where
  | Binding (b : Nat)
  | Label (l : Nat)
  | Constant (c : Nat)
deriving Repr, DecidableEq

/-- Modelled from the spec: one caller-declared result target of a call
(`assign.binding`, `assign.assign_index` in optir.rs). -/
structure AssignedBinding where
  binding : Nat
  assign_index : Nat
deriving Repr, DecidableEq

/-- Modelled from the spec: an HLIR value expression (copy list, additive
combination, or call), as matched in `Block::from_hlir_block` and
`compute_return_counts`. -/
inductive Value where
  | Copied (pures : List Pure)
  | Add (lhs : Pure) (rest : List Pure)
  | Call (label : Nat) (params : List Pure)
deriving Repr, DecidableEq

/-- Modelled from the spec: the HLIR block terminator (tail value,
conditional branch, or the must-be-pruned empty marker). -/
inductive End where
  | TailValue (value : Value)
  | ConditionalBranch (condition : Pure) (label_if_true label_if_false : Nat)
  | BlockIsEmpty
deriving Repr, DecidableEq

/-- Modelled from the spec: one HLIR assignment statement
(`assignment.value`, `assignment.used_bindings`). -/
structure Statement where
  used_bindings : List AssignedBinding
  value : Value
deriving Repr, DecidableEq

/-- Modelled from the spec: an HLIR block: argument bindings (`gets`,
used only for its length in optir.rs), assignment statements, and one
terminator.  The terminator field is named `end_` because `end` is a
Lean keyword. -/
structure Block where
  gets : List Nat
  assigns : List Statement
  end_ : End
deriving Repr, DecidableEq

end hlir

namespace optir

namespace bucket

/-- How a binding requires its storage place: exclusively, or shared with
mutually-exclusive alternatives (mod bucket in optir.rs). -/
inductive UsageKind where
  | Exclusive
  | Selective (selection_bucket : Nat)
deriving Repr, DecidableEq

/-- Where a binding is used: by the operation at an index, or by the block
terminator. -/
inductive UsageIndex where
  | Op (i : Nat)
  | BlockEnd
deriving Repr, DecidableEq

/-- Source `UsageIndex::as_index`. -/
def UsageIndex.as_index : UsageIndex → Option Nat
  | .Op index => some index
  | .BlockEnd => none

/-- Describes how and where a binding is used. -/
structure Usage where
  usage_kind : UsageKind
  index : UsageIndex
deriving Repr, DecidableEq

/-- Describes how a binding is defined: as the Nth block argument or as
the result of the operation at an index. -/
inductive Definition where
  | Argument (n : Nat)
  | Op (n : Nat)
deriving Repr, DecidableEq

end bucket

/-- Source `BindingRange(Range<usize>)`: a contiguous span of binding indices.
Rust `Range` fields are `start` and `end`; the second is named `stop`
because `end` is a Lean keyword. -/
structure BindingRange where
  start : Nat
  stop : Nat
deriving Repr, DecidableEq

/-- Iterating a `BindingRange` yields the bindings `start, start+1, ...`
up to (excluding) `stop`; this is the `Iterator`/`into` conversion used
when a range is frozen into a `FixedArray`. -/
def BindingRange.toList (r : BindingRange) : List Nat :=
  List.range' r.start (r.stop - r.start)

/-- Per call operation: which callee results are consumed, the range of
freshly allocated result bindings, and the called label. -/
structure CallReturnUsage where
  result_usage : List Nat
  result_binding_range : BindingRange
  called_label : Nat
deriving Repr, DecidableEq

/-- Source `Constant`: a numeric literal or a label reference. -/
inductive Constant where
  | Numeric (n : Nat)
  | Label (l : Nat)
deriving Repr, DecidableEq

/-- Source `Constant::try_from(hlir::Pure)`: bindings are returned as the error
payload, labels and numerics become constants. -/
def Constant.try_from : hlir.Pure → Except Nat Constant
  | .Binding binding => .error binding
  | .Label label => .ok (.Label label)
  | .Constant constant => .ok (.Numeric constant)

/-- One selector of a phi node: candidate bindings plus their source
block. -/
structure PhiSelector where
  used_bindings : List Nat
  block_from : Nat
deriving Repr, DecidableEq

/-- An operation: what work is done, decoupled from where results live. -/
inductive Op where
  | Constant (c : optir.Constant)
  | Phi (selectors : List PhiSelector)
  | Call (label : Nat) (args : List Nat) (usage_info_index : Nat)
  | Add (lhs rhs : Nat)
deriving Repr, DecidableEq

/-- Discriminator for `Op::Call`, used to state the call bookkeeping
invariants. -/
def Op.isCall : Op → Bool
  | .Call _ _ _ => true
  | _ => false

/-- Discriminator for `Op::Constant`. -/
def Op.isConstantOp : Op → Bool
  | .Constant _ => true
  | _ => false

/-- Discriminator for `Op::Add`. -/
def Op.isAddOp : Op → Bool
  | .Add _ _ => true
  | _ => false

/-- Source `ExportedBindings = HashMap<Label, FixedArray<Binding>>`, modelled as
an association list (block translation only ever builds the empty map). -/
def ExportedBindings := List (Nat × List Nat)
deriving Repr, DecidableEq

/-- The control-flow terminator of a translated block. -/
inductive CFTransfer where
  | Return (values : List Nat)
  | DirectBranch (target : Nat) (exported_bindings : ExportedBindings)
  | ConditionalBranch (exported_bindings : ExportedBindings)
      (condition_source : Nat) (target_if_true target_if_false : Nat)
deriving Repr, DecidableEq

/-- A translated OPTIR block.  The terminator field is named `end_`
because `end` is a Lean keyword. -/
structure Block where
  arg_count : Nat
  binding_defs : List bucket.Definition
  binding_usages : List (List bucket.Usage)
  call_return_usages : List CallReturnUsage
  operations : List Op
  end_ : CFTransfer
deriving Repr, DecidableEq

/-- Per-block summary of the terminator targets. -/
inductive ForwardEdge where
  | Dynamic
  | Direct (l : Nat)
  | Conditional (target_if_true target_if_false : Nat)
deriving Repr, DecidableEq

/-- The whole program: blocks plus the two branching maps.  The Rust
`HashMap`s are modelled by their lookup functions: the forwards map has
exactly the block indices as keys, the backwards map yields the
(deduplicated) predecessor set of a label, empty for an absent key. -/
structure IR where
  blocks : List Block
  forwards_branching_map : Nat → Option ForwardEdge
  backwards_branching_map : Nat → Finset Nat

/-- The mutable state of `Block::from_hlir_block`: the HLIR-to-OPTIR
alias map (`HashMap`, modelled as a most-recent-first association list),
the growing op list, and the binding bookkeeping arrays. -/
structure BlockBuilder where
  hlir_results : List (Nat × Nat)
  ops : List Op
  arg_count : Nat
  binding_definitions : List bucket.Definition
  binding_usages : List (List bucket.Usage)
  call_return_usages : List CallReturnUsage
  binding_count : Nat
deriving Repr, DecidableEq

/-- Source `BlockBuilder::register_result`: insert into the alias map
(`HashMap::insert` overwrites, which cons-plus-first-match lookup
reproduces). -/
def BlockBuilder.register_result (b : BlockBuilder)
    (hlir_target self_target : Nat) : BlockBuilder :=
  { b with hlir_results := (hlir_target, self_target) :: b.hlir_results }

/-- Source `BlockBuilder::usage_for_next_op`: a usage whose index is the op slot
that the next pushed operation will occupy. -/
def BlockBuilder.usage_for_next_op (b : BlockBuilder)
    (usage_kind : bucket.UsageKind) : bucket.Usage :=
  { usage_kind := usage_kind, index := .Op b.ops.length }

/-- Source `BlockBuilder::new_binding`: allocates the next binding index and an
empty usage bucket.  Exactly as in the source, the `definition` argument
is dropped: `binding_definitions` is not extended. -/
def BlockBuilder.new_binding (b : BlockBuilder)
    (definition : bucket.Definition) : BlockBuilder × Nat :=
  let index := b.binding_usages.length
  ({ b with binding_usages := b.binding_usages ++ [[]] }, index)

/-- Source `BlockBuilder::push_op`. -/
def BlockBuilder.push_op (b : BlockBuilder) (op : Op) : BlockBuilder :=
  { b with ops := b.ops ++ [op] }

/-- Source `BlockBuilder::define`: push an operation and allocate its result
binding. -/
def BlockBuilder.define (b : BlockBuilder) (op : Op) : BlockBuilder × Nat :=
  let definition := bucket.Definition.Op b.ops.length
  let b := { b with ops := b.ops ++ [op] }
  b.new_binding definition

/-- Source `self.get_usage_bucket(binding).push(usage)`: Rust indexes
`binding_usages[binding]`, which panics when the binding is out of range
(modelled as `none`). -/
def BlockBuilder.push_usage (b : BlockBuilder) (binding : Nat)
    (usage : bucket.Usage) : Option BlockBuilder :=
  if h : binding < b.binding_usages.length then
    some { b with binding_usages :=
      b.binding_usages.set binding (b.binding_usages.get ⟨binding, h⟩ ++ [usage]) }
  else none

/-- Source `BlockBuilder::compile_pure`: constants and labels become fresh
`Constant` ops; a binding reference is looked up in the alias map, where
Rust `self.hlir_results[&alias]` panics on a missing key (`none`). -/
def BlockBuilder.compile_pure (b : BlockBuilder) (hlir_value : hlir.Pure) :
    Option (BlockBuilder × Nat) :=
  match Constant.try_from hlir_value with
  | .ok constant => some (b.define (.Constant constant))
  | .error alias_ => (b.hlir_results.lookup alias_).map fun r => (b, r)

/-- The fold body of `BlockBuilder::compile_add`: convert the next rhs,
record an `Exclusive` usage on both operands at the op slot of the `Add`
about to be pushed, then define the `Add`. -/
def BlockBuilder.compile_add_loop (b : BlockBuilder) (lhs : Nat) :
    List hlir.Pure → Option (BlockBuilder × Nat)
  | [] => some (b, lhs)
  | rhs :: rest =>
    (b.compile_pure rhs).bind fun (b, rhs) =>
      let usage := b.usage_for_next_op .Exclusive
      (b.push_usage lhs usage).bind fun b =>
      (b.push_usage rhs usage).bind fun b =>
        let (b, next) := b.define (.Add lhs rhs)
        b.compile_add_loop next rest

/-- Source `BlockBuilder::compile_add`: left fold of `compile_add_loop` over the
operand list, seeded with the compiled lhs. -/
def BlockBuilder.compile_add (b : BlockBuilder) (lhs : hlir.Pure)
    (rest : List hlir.Pure) : Option (BlockBuilder × Nat) :=
  (b.compile_pure lhs).bind fun (b, lhs) => b.compile_add_loop lhs rest

/-- Source `BlockBuilder::compile_copied`: compile each pure in order, collecting
the resulting bindings. -/
def BlockBuilder.compile_copied (b : BlockBuilder) :
    List hlir.Pure → Option (BlockBuilder × List Nat)
  | [] => some (b, [])
  | pure :: rest =>
    (b.compile_pure pure).bind fun (b, r) =>
      (b.compile_copied rest).map fun (b, rs) => (b, r :: rs)

/-- Source `AssignedUsage`: whether a call consumes all of the callee results or
only caller-declared positions. -/
inductive AssignedUsage where
  | All
  | Specific (assigns : List hlir.AssignedBinding)
deriving Repr, DecidableEq

/-- The parameter pass of `BlockBuilder::compile_call`: compile each
parameter and record the (pre-computed) call usage on it. -/
def BlockBuilder.compile_call_params (b : BlockBuilder)
    (usage : bucket.Usage) : List hlir.Pure → Option (BlockBuilder × List Nat)
  | [] => some (b, [])
  | value :: rest =>
    (b.compile_pure value).bind fun (b, param) =>
    (b.push_usage param usage).bind fun b =>
    (b.compile_call_params usage rest).map fun (b, ps) => (b, param :: ps)

/-- The `AssignedUsage::Specific` arm of `compile_call`: allocate one
result binding per caller-declared target, aliasing each, and collect the
declared result positions. -/
def BlockBuilder.collect_specific (b : BlockBuilder)
    (definition : bucket.Definition) :
    List hlir.AssignedBinding → BlockBuilder × List Nat
  | [] => (b, [])
  | assign :: rest =>
    let (b, result) := b.new_binding definition
    let b := b.register_result assign.binding result
    let (b, idxs) := b.collect_specific definition rest
    (b, assign.assign_index :: idxs)

/-- The `AssignedUsage::All` arm of `compile_call`: allocate
`target_return_count` fresh result bindings. -/
def BlockBuilder.alloc_all (b : BlockBuilder)
    (definition : bucket.Definition) : Nat → BlockBuilder
  | 0 => b
  | n + 1 => ((b.new_binding definition).1).alloc_all definition n

/-- Source `BlockBuilder::compile_call`: compile the parameters (recording the
call usage on each), allocate the result bindings, then push the `Call`
op (its `usage_info_index` is the pre-push length of
`call_return_usages`) and append the `CallReturnUsage` record.  The
`unwrap_unchecked` on `usage.index.as_index()` is modelled with `getD 0`;
it is exact because the usage index is an `Op` by construction.  Exactly
as in the source, `result_binding_range` is built from `binding_count`,
which is never incremented anywhere. -/
def BlockBuilder.compile_call (b : BlockBuilder) (label : Nat)
    (params : List hlir.Pure) (assigned_usage : AssignedUsage)
    (target_return_count : Nat) : Option (BlockBuilder × BindingRange) :=
  let usage := b.usage_for_next_op .Exclusive
  (b.compile_call_params usage params).bind fun (b, params) =>
    let result_start_index := b.binding_count
    let definition := bucket.Definition.Op (usage.index.as_index.getD 0)
    let (b, result_usage) :=
      match assigned_usage with
      | .Specific used_bindings => b.collect_specific definition used_bindings
      | .All => (b.alloc_all definition target_return_count,
                 List.range target_return_count)
    let result_binding_range : BindingRange :=
      ⟨result_start_index, b.binding_count⟩
    let b := b.push_op (.Call label params b.call_return_usages.length)
    let b := { b with call_return_usages :=
      b.call_return_usages ++
        [⟨result_usage, result_binding_range, label⟩] }
    some (b, result_binding_range)

/-- Source `BlockBuilder::release`: freeze the builder into a `Block`. -/
def BlockBuilder.release (b : BlockBuilder) (end_ : CFTransfer) : Block :=
  { arg_count := b.arg_count
    binding_defs := b.binding_definitions
    binding_usages := b.binding_usages
    call_return_usages := b.call_return_usages
    operations := b.ops
    end_ := end_ }

/-- The zip-and-register loop of the `Value::Copied` assignment arm:
pair targets with results until one list ends. -/
def BlockBuilder.register_all (b : BlockBuilder) :
    List Nat → List Nat → BlockBuilder
  | target :: ts, result :: rs =>
    ((b.register_result target result).register_all ts rs)
  | _, _ => b

/-- The body of the assignment loop of `Block::from_hlir_block` for one
statement.  `Value::Add` and `Value::Call` assignments are `todo!()` in
the source (a panic, modelled as `none`). -/
def BlockBuilder.compile_statement (b : BlockBuilder)
    (assignment : hlir.Statement) : Option BlockBuilder :=
  match assignment.value with
  | .Copied copied =>
    (b.compile_copied copied).map fun (b, results) =>
      b.register_all (assignment.used_bindings.map (·.binding)) results
  | .Add _ _ => none
  | .Call _ _ => none

/-- The assignment loop of `Block::from_hlir_block`. -/
def BlockBuilder.compile_assignments (b : BlockBuilder) :
    List hlir.Statement → Option BlockBuilder
  | [] => some b
  | assignment :: rest =>
    (b.compile_statement assignment).bind
      fun b => BlockBuilder.compile_assignments b rest

/-- The `let end = match hlir_block.end` expression of
`Block::from_hlir_block`.  For a tail call the Rust code indexes
`block_return_counts[label]` (panic when out of range, modelled via
`getElem?`); `End::BlockIsEmpty` is `unreachable!()` (modelled as
`none`). -/
def BlockBuilder.compile_end (builder : BlockBuilder) (end_ : hlir.End)
    (block_return_counts : List Nat) : Option (BlockBuilder × CFTransfer) :=
  match end_ with
  | .TailValue value =>
    match value with
    | .Copied pures =>
      (builder.compile_copied pures).map fun (b, rs) => (b, CFTransfer.Return rs)
    | .Add lhs rest =>
      (builder.compile_add lhs rest).map fun (b, r) => (b, CFTransfer.Return [r])
    | .Call label params =>
      (block_return_counts[label]?).bind fun count =>
        (builder.compile_call label params .All count).map fun (b, range) =>
          (b, CFTransfer.Return range.toList)
  | .ConditionalBranch condition label_if_true label_if_false =>
    (builder.compile_pure condition).map fun (b, condition) =>
      (b, CFTransfer.ConditionalBranch [] condition label_if_true label_if_false)
  | .BlockIsEmpty => none

/-- Source `Block::from_hlir_block`: seed the builder with the argument
definitions, run the assignment loop, build the terminator, release.
The source also computes a local `current_binding_count` that it never
reads; that dead local is omitted. -/
def Block.from_hlir_block (hlir_block : hlir.Block)
    (block_return_counts : List Nat) : Option Block :=
  let arg_buckets :=
    (List.range hlir_block.gets.length).map bucket.Definition.Argument
  let builder : BlockBuilder :=
    { hlir_results := []
      ops := []
      arg_count := hlir_block.gets.length
      binding_definitions := arg_buckets
      binding_usages := []
      call_return_usages := []
      binding_count := 0 }
  (builder.compile_assignments hlir_block.assigns).bind fun builder =>
    (builder.compile_end hlir_block.end_ block_return_counts).map
      fun (b, end_) => b.release end_

/-- The per-block edge computed inline in `IR::from_blocks`. -/
def forward_edge_of : CFTransfer → ForwardEdge
  | .Return _ => .Dynamic
  | .DirectBranch target _ => .Direct target
  | .ConditionalBranch _ _ target_if_true target_if_false =>
    .Conditional target_if_true target_if_false

/-- Source `backwards_branching_map.entry(target).or_default().insert(label)`:
add `label` to the predecessor set of `target`. -/
def register_predecessor (m : Nat → Finset Nat) (target label : Nat) :
    Nat → Finset Nat :=
  Function.update m target (insert label (m target))

/-- The per-block backward-edge registrations of `IR::from_blocks`. -/
def record_back_edges (label : Nat) (b : Block) (m : Nat → Finset Nat) :
    Nat → Finset Nat :=
  match b.end_ with
  | .Return _ => m
  | .DirectBranch target _ => register_predecessor m target label
  | .ConditionalBranch _ _ target_if_true target_if_false =>
    register_predecessor
      (register_predecessor m target_if_true label) target_if_false label

/-- The enumerate-and-accumulate pass of `IR::from_blocks`, building the
backwards branching map. -/
def build_backwards : Nat → List Block → (Nat → Finset Nat) → Nat → Finset Nat
  | _, [], m => m
  | label, b :: bs, m => build_backwards (label + 1) bs (record_back_edges label b m)

/-- Source `IR::from_blocks`: one pass over the enumerated blocks builds both
maps; the forwards map binds each block index to the edge of its
terminator. -/
def IR.from_blocks (blocks : List Block) : IR :=
  { blocks := blocks
    forwards_branching_map := fun label =>
      (blocks[label]?).map fun b => forward_edge_of b.end_
    backwards_branching_map := build_backwards 0 blocks fun _ => ∅ }

/-- A pending solver task: the block index plus a retry counter.  Exactly
as in the source, `tries` is initialised to zero and never incremented or
read anywhere. -/
structure Task where
  index : Nat
  tries : Nat
deriving Repr, DecidableEq

/-- Source `Task::new`. -/
def Task.new (index : Nat) : Task := ⟨index, 0⟩

/-- The locals of the `compute_return_counts` loop: the per-block count
array (`slice`), the solved set (a `HashSet`, modelled by membership in a
list), and the `VecDeque` work queue. -/
structure SolverState where
  slice : List Nat
  solved : List Nat
  queue : List Task
deriving Repr, DecidableEq

/-- What the body of the solver loop decides for one popped task: solve
it with a count, or fall through to the deferral code.  `Solve` covers
the four `continue` paths of the Rust match; a conditional branch with
both arms solved takes the true-arm count (the
`debug_assert_eq!(slice[true_index], slice[false_index])` is a debug-only
assertion, compiled out in release builds, so it is not part of the
embedded semantics).  `none` models the `unreachable!()` panic for
`End::BlockIsEmpty` and the panic of `blocks[next.index]` on an
out-of-range index.  The `slice[target]` reads are in range whenever the
target is in the solved set, so they are modelled with `getD`. -/
def classify_task (blocks : List hlir.Block) (slice solved : List Nat)
    (index : Nat) : Option (Option Nat) :=
  (blocks[index]?).bind fun blk =>
    match blk.end_ with
    | .TailValue (.Copied pures) => some (some pures.length)
    | .TailValue (.Add _ _) => some (some 1)
    | .TailValue (.Call label _) =>
      if solved.contains label then some (some (slice.getD label 0))
      else some none
    | .ConditionalBranch _ label_if_true label_if_false =>
      if solved.contains label_if_true && solved.contains label_if_false then
        some (some (slice.getD label_if_true 0))
      else some none
    | .BlockIsEmpty => none

/-- The `while let Some(next) = queue.pop_front()` loop of
`compute_return_counts`, with explicit fuel.  A solved task records its
count and is dropped; an unsolved task falls through to the re-enqueue
guard, which — exactly as in the source — tests `next.index < 10` (the
`tries` field is dead) and pushes the task back unchanged. -/
def run_queue (blocks : List hlir.Block) : Nat → SolverState → Option (List Nat)
  | 0, _ => none
  | fuel + 1, s =>
    match s.queue with
    | [] => some s.slice
    | next :: rest =>
      match classify_task blocks s.slice s.solved next.index with
      | none => none
      | some (some count) =>
        run_queue blocks fuel
          ⟨s.slice.set next.index count, next.index :: s.solved, rest⟩
      | some none =>
        run_queue blocks fuel
          ⟨s.slice, s.solved, if next.index < 10 then rest ++ [next] else rest⟩

/-- The solver with the initial work-queue order made explicit, following
the spec wording about permuting the initial queue: `compute_return_counts`
is this at the seeding order `0, 1, ..., blocks.len() - 1`. -/
def solve_with_initial_queue (blocks : List hlir.Block) (fuel : Nat)
    (queue : List Nat) : Option (List Nat) :=
  run_queue blocks fuel
    ⟨List.replicate blocks.length 0, [], queue.map Task.new⟩

/-- Source `compute_return_counts`, with fuel for the unbounded Rust loop:
`some counts` when the queue empties within `fuel` iterations, `none`
when it panics or does not finish. -/
def compute_return_counts (blocks : List hlir.Block) (fuel : Nat) :
    Option (List Nat) :=
  solve_with_initial_queue blocks fuel (List.range blocks.length)

end optir

namespace examples

/-- A zero-argument HLIR block whose terminator returns one literal
constant. -/
def constant_return_block : hlir.Block :=
  ⟨[], [], .TailValue (.Copied [.Constant 1])⟩

/-- A one-argument HLIR block whose terminator returns that argument. -/
def argument_return_block : hlir.Block :=
  ⟨[0], [], .TailValue (.Copied [.Binding 0])⟩

/-- A zero-argument HLIR block whose terminator is a tail call to block 1
(whose return count is 1 in the table passed alongside). -/
def tail_call_block : hlir.Block :=
  ⟨[], [], .TailValue (.Call 1 [])⟩

/-- A zero-argument HLIR block computing the tail additive value
`1 + 2 + 3`. -/
def add_chain_block : hlir.Block :=
  ⟨[], [], .TailValue (.Add (.Constant 1) [.Constant 2, .Constant 3])⟩

/-- Two HLIR blocks whose terminators tail-call each other: a direct
cyclic call graph with no base case. -/
def two_cycle_blocks : List hlir.Block :=
  [⟨[], [], .TailValue (.Call 1 [])⟩, ⟨[], [], .TailValue (.Call 0 [])⟩]

/-- Three HLIR blocks in a tail-call cycle 0 → 1 → 2 → 0. -/
def three_cycle_blocks : List hlir.Block :=
  [⟨[], [], .TailValue (.Call 1 [])⟩,
   ⟨[], [], .TailValue (.Call 2 [])⟩,
   ⟨[], [], .TailValue (.Call 0 [])⟩]

/-- Block 0 returns two values, block 1 returns three values, block 2 is
a conditional branch between them: the arity-mismatch scenario. -/
def mismatched_arms_blocks : List hlir.Block :=
  [⟨[], [], .TailValue (.Copied [.Constant 1, .Constant 2])⟩,
   ⟨[], [], .TailValue (.Copied [.Constant 1, .Constant 2, .Constant 3])⟩,
   ⟨[], [], .ConditionalBranch (.Constant 0) 0 1⟩]

/-- Twelve HLIR blocks: blocks 0..9 return an empty value list, block 10
tail-calls block 11, block 11 returns one constant.  Because the solver
abandons an unsolved task whose block index is at least 10, the count of
block 10 depends on whether block 11 is popped before it. -/
def order_sensitive_blocks : List hlir.Block :=
  (List.replicate 10 ⟨[], [], .TailValue (.Copied [])⟩) ++
    [⟨[], [], .TailValue (.Call 11 [])⟩,
     ⟨[], [], .TailValue (.Copied [.Constant 7])⟩]

/-- The same twelve initial tasks as `List.range 12`, but with block 11
queued before block 10. -/
def swapped_queue : List Nat := [0, 1, 2, 3, 4, 5, 6, 7, 8, 9, 11, 10]

/-- The translated block produced for `tail_call_block` (used to witness
the call bookkeeping invariant at a concrete input). -/
def tail_call_translated : optir.Block :=
  { arg_count := 0
    binding_defs := []
    binding_usages := [[]]
    call_return_usages := [⟨[0], ⟨0, 0⟩, 1⟩]
    operations := [.Call 1 [] 0]
    end_ := .Return [] }

end examples

namespace optir

/-- A forward edge targets a label when it is a direct branch to it or a
conditional branch with it as one of the two arms; a `Dynamic` edge (a
`Return` terminator) targets no label. -/
def ForwardEdge.targets : ForwardEdge → Nat → Prop
  | .Dynamic, _ => False
  | .Direct target, l => target = l
  | .Conditional target_if_true target_if_false, l =>
    target_if_true = l ∨ target_if_false = l

/-- A builder state in which no `Call` operation has been pushed yet and
the call bookkeeping list is still empty — the state of translation
before the terminator is compiled, since assignment compilation never
lowers calls. -/
def BlockBuilder.NoCalls (b : BlockBuilder) : Prop :=
  (∀ op ∈ b.ops, op.isCall = false) ∧ b.call_return_usages = []

end optir

/-- Claim C1: for the zero-argument block returning one literal constant,
translation produces `binding_defs` of length 0 but `binding_usages` of
length 1: the two arrays do not have equal length (the code never extends
`binding_defs` past the argument definitions, because
`BlockBuilder::new_binding` drops its `definition` argument). -/
theorem C1_binding_defs_usages_diverge :
    (optir.Block.from_hlir_block examples.constant_return_block []).map
        (fun b => (b.binding_defs.length, b.binding_usages.length)) =
      some (0, 1) := rfl

/-- Claim C2: on two blocks whose terminators tail-call each other with no
base case, `compute_return_counts` yields no result at any fuel: the Rust
loop re-enqueues both tasks forever (the re-enqueue guard tests the block
index, which is below 10) and its signature has no error channel at all,
so no `CyclicCallGraph` error identifying the unresolved blocks is ever
produced. -/
theorem C2_cycle_no_error_no_result (fuel : Nat) :
    optir.compute_return_counts examples.two_cycle_blocks fuel = none := by
  have key : ∀ n,
      optir.run_queue examples.two_cycle_blocks n
          ⟨[0, 0], [], [⟨0, 0⟩, ⟨1, 0⟩]⟩ = none ∧
      optir.run_queue examples.two_cycle_blocks n
          ⟨[0, 0], [], [⟨1, 0⟩, ⟨0, 0⟩]⟩ = none := by
    intro n
    induction n with
    | zero => exact ⟨rfl, rfl⟩
    | succ n ih =>
      refine ⟨?_, ?_⟩
      · show optir.run_queue examples.two_cycle_blocks n
            ⟨[0, 0], [], [⟨1, 0⟩, ⟨0, 0⟩]⟩ = none
        exact ih.2
      · show optir.run_queue examples.two_cycle_blocks n
            ⟨[0, 0], [], [⟨0, 0⟩, ⟨1, 0⟩]⟩ = none
        exact ih.1
  exact (key fuel).1

/-- Claim C3: the solver does not terminate on every input: on the
three-block tail-call cycle 0 → 1 → 2 → 0 it yields no result at any
fuel.  The `Task.tries` retry counter is initialised to zero and never
incremented or read; the re-enqueue guard tests `next.index < 10`
instead, so these tasks are re-enqueued without bound. -/
theorem C3_retry_counter_unused_nontermination (fuel : Nat) :
    optir.compute_return_counts examples.three_cycle_blocks fuel = none := by
  have key : ∀ n,
      optir.run_queue examples.three_cycle_blocks n
          ⟨[0, 0, 0], [], [⟨0, 0⟩, ⟨1, 0⟩, ⟨2, 0⟩]⟩ = none ∧
      optir.run_queue examples.three_cycle_blocks n
          ⟨[0, 0, 0], [], [⟨1, 0⟩, ⟨2, 0⟩, ⟨0, 0⟩]⟩ = none ∧
      optir.run_queue examples.three_cycle_blocks n
          ⟨[0, 0, 0], [], [⟨2, 0⟩, ⟨0, 0⟩, ⟨1, 0⟩]⟩ = none := by
    intro n
    induction n with
    | zero => exact ⟨rfl, rfl, rfl⟩
    | succ n ih =>
      refine ⟨?_, ?_, ?_⟩
      · show optir.run_queue examples.three_cycle_blocks n
            ⟨[0, 0, 0], [], [⟨1, 0⟩, ⟨2, 0⟩, ⟨0, 0⟩]⟩ = none
        exact ih.2.1
      · show optir.run_queue examples.three_cycle_blocks n
            ⟨[0, 0, 0], [], [⟨2, 0⟩, ⟨0, 0⟩, ⟨1, 0⟩]⟩ = none
        exact ih.2.2
      · show optir.run_queue examples.three_cycle_blocks n
            ⟨[0, 0, 0], [], [⟨0, 0⟩, ⟨1, 0⟩, ⟨2, 0⟩]⟩ = none
        exact ih.1
  exact (key fuel).1

/-- Claim C4: translating the one-argument block whose terminator is
`Return(Copied([argument_0]))` does not produce the claimed block at all:
`from_hlir_block` never registers argument bindings in the alias map, so
`compile_pure` hits a missing-key lookup (a panic in Rust, `none` here). -/
theorem C4_argument_return_translation_fails :
    optir.Block.from_hlir_block examples.argument_return_block [1] = none := rfl

/-- Claim C5: in the translated tail-call block, one result binding is
allocated for the one consumed result (`result_usage = [0]`, and the
binding usage array has one entry), yet `result_binding_range` is the
empty range 0..0, because `BlockBuilder::binding_count` is never
incremented: the range does not cover the freshly allocated result
bindings. -/
theorem C5_result_range_empty :
    (optir.Block.from_hlir_block examples.tail_call_block [0, 1]).map
        (fun b =>
          (b.call_return_usages.map fun u =>
            (u.result_usage, u.result_binding_range.start,
             u.result_binding_range.stop),
           b.binding_usages.length)) =
      some ([([0], 0, 0)], 1) := rfl

/-- Claim C6: translating the tail additive value over the constants
1, 2, 3 produces operations containing three `Constant` ops and two `Add`
ops (at indices 2 and 4, consuming bindings 0,1 and 2,3 respectively);
every intermediate binding carries exactly one `Exclusive` usage whose
index is the consuming `Add` op — in particular the intermediate `Add`
result (binding 2) has usage list `[Exclusive @ Op 4]` — and the final
result (binding 4) has none. -/
theorem C6_add_chain_ops_and_usages :
    (optir.Block.from_hlir_block examples.add_chain_block []).map
        (fun b =>
          (b.operations.countP optir.Op.isConstantOp,
           b.operations.countP optir.Op.isAddOp,
           b.binding_usages,
           b.operations[2]?,
           b.operations[4]?)) =
      some (3, 2,
        [[⟨.Exclusive, .Op 2⟩], [⟨.Exclusive, .Op 2⟩],
         [⟨.Exclusive, .Op 4⟩], [⟨.Exclusive, .Op 4⟩], []],
        some (.Add 0 1), some (.Add 2 3)) := rfl

/-- Claim C7: when the two arms of a conditional branch resolve to counts
2 and 3, the solver raises no error at all: the agreement check is only a
`debug_assert_eq!` (compiled out of release builds), after which the
true-arm count is propagated, so the solver returns the counts
`[2, 3, 2]` normally. -/
theorem C7_cond_mismatch_propagates_true_arm :
    optir.compute_return_counts examples.mismatched_arms_blocks 10 =
      some [2, 3, 2] := rfl

/-- Claim C9 (counterexample): the per-block counts are not invariant
under permutation of the initial work-queue order.  On the twelve-block
program, seeding with `0..12` abandons block 10 at count 0 (its callee,
block 11, is still unsolved when it is popped, and tasks with index ≥ 10
are never re-enqueued), while the permuted seeding that pops block 11
first solves block 10 to count 1. -/
theorem C9_order_dependence_counterexample :
    List.Perm examples.swapped_queue (List.range 12) ∧
    optir.solve_with_initial_queue examples.order_sensitive_blocks 20
        (List.range 12) = some [0, 0, 0, 0, 0, 0, 0, 0, 0, 0, 0, 1] ∧
    optir.solve_with_initial_queue examples.order_sensitive_blocks 20
        examples.swapped_queue = some [0, 0, 0, 0, 0, 0, 0, 0, 0, 0, 1, 1] ∧
    ([0, 0, 0, 0, 0, 0, 0, 0, 0, 0, 0, 1] : List Nat) ≠
      [0, 0, 0, 0, 0, 0, 0, 0, 0, 0, 1, 1] :=
  ⟨by decide, rfl, rfl, by decide⟩

/-- Claim C9 (amended): return-count solving is deterministic for a fixed
initial work-queue order — two runs of the solver on the same block list,
fuel and initial queue that both complete yield the same per-block count
array — though not invariant under permuting that initial queue. -/
theorem C9_solver_deterministic_same_queue (blocks : List hlir.Block)
    (fuel : Nat) (queue : List Nat) (counts1 counts2 : List Nat)
    (h1 : optir.solve_with_initial_queue blocks fuel queue = some counts1)
    (h2 : optir.solve_with_initial_queue blocks fuel queue = some counts2) :
    counts1 = counts2 := by
  rw [h1] at h2
  exact Option.some.inj h2

/-- Claim C9 (witness): the determinism theorem applied at the concrete
twelve-block program with the standard seeding order. -/
theorem C9_solver_deterministic_witness :
    optir.solve_with_initial_queue examples.order_sensitive_blocks 20
        (List.range 12) = some [0, 0, 0, 0, 0, 0, 0, 0, 0, 0, 0, 1] ∧
    ([0, 0, 0, 0, 0, 0, 0, 0, 0, 0, 0, 1] : List Nat) =
      [0, 0, 0, 0, 0, 0, 0, 0, 0, 0, 0, 1] :=
  ⟨rfl, C9_solver_deterministic_same_queue examples.order_sensitive_blocks 20
    (List.range 12) _ _ rfl rfl⟩

namespace optir

/-- Membership in the predecessor map after one registration: the new map
differs only at `target`, where `label` is added. -/
theorem mem_register_predecessor (m : Nat → Finset Nat) (target label L P : Nat) :
    P ∈ register_predecessor m target label L ↔
      (P ∈ m L ∨ (target = L ∧ P = label)) := by
  unfold register_predecessor
  rcases eq_or_ne L target with h | h
  · subst h
    simp [Function.update_same]
    tauto
  · simp [Function.update_noteq h, Ne.symm h]

/-- Membership in the predecessor map after one block is processed:
`label` is added exactly at the labels targeted by the forward edge of the block terminator. -/
theorem mem_record_back_edges (label : Nat) (b : Block) (m : Nat → Finset Nat)
    (L P : Nat) :
    P ∈ record_back_edges label b m L ↔
      (P ∈ m L ∨ ((forward_edge_of b.end_).targets L ∧ P = label)) := by
  cases hb : b.end_ with
  | Return values =>
    simp [record_back_edges, forward_edge_of, ForwardEdge.targets, hb]
  | DirectBranch target exported =>
    simp [record_back_edges, forward_edge_of, ForwardEdge.targets, hb,
      mem_register_predecessor]
  | ConditionalBranch exported cond t f =>
    simp [record_back_edges, forward_edge_of, ForwardEdge.targets, hb,
      mem_register_predecessor]
    tauto

/-- Membership in the accumulated backwards map: a predecessor recorded
by the enumeration pass starting at index `i` is either already in the
accumulator or the (i + j)-th block for some `j`, with its forward edge
targeting `L`. -/
theorem mem_build_backwards (bs : List Block) : ∀ (i : Nat) (m : Nat → Finset Nat)
    (L P : Nat),
    P ∈ build_backwards i bs m L ↔
      (P ∈ m L ∨ ∃ j b, bs[j]? = some b ∧
        (forward_edge_of b.end_).targets L ∧ P = i + j) := by
  induction bs with
  | nil =>
    intro i m L P
    simp [build_backwards]
  | cons b bs ih =>
    intro i m L P
    rw [build_backwards, ih, mem_record_back_edges]
    constructor
    · rintro ((h | ⟨ht, rfl⟩) | ⟨j, b', hj, ht, rfl⟩)
      · exact Or.inl h
      · exact Or.inr ⟨0, b, by simp, ht, by omega⟩
      · exact Or.inr ⟨j + 1, b', by simpa using hj, ht, by omega⟩
    · rintro (h | ⟨j, b', hj, ht, rfl⟩)
      · exact Or.inl (Or.inl h)
      · cases j with
        | zero =>
          simp only [List.getElem?_cons_zero, Option.some.injEq] at hj
          subst hj
          exact Or.inl (Or.inr ⟨ht, by omega⟩)
        | succ j =>
          refine Or.inr ⟨j, b', by simpa using hj, ht, by omega⟩

end optir

/-- Claim C8: for the IR assembled from any block list, the backwards
branching map is the exact set-valued inverse of the forwards branching
map: `P` is a predecessor of `L` exactly when the forward edge stored for
`P` targets `L` (a `Direct(L)` edge or a `Conditional` edge with `L` as
one of its two arms).  A `Return` terminator yields a `Dynamic` forward
edge, which targets nothing, so it contributes no backward edge. -/
theorem C8_backwards_inverse_of_forwards (blocks : List optir.Block) (L P : Nat) :
    P ∈ (optir.IR.from_blocks blocks).backwards_branching_map L ↔
      ∃ e, (optir.IR.from_blocks blocks).forwards_branching_map P = some e ∧
        e.targets L := by
  show P ∈ optir.build_backwards 0 blocks (fun _ => ∅) L ↔ _
  rw [optir.mem_build_backwards]
  simp only [Finset.not_mem_empty, false_or]
  constructor
  · rintro ⟨j, b, hj, ht, rfl⟩
    refine ⟨optir.forward_edge_of b.end_, ?_, ht⟩
    show (blocks[(0 + j : Nat)]?).map _ = _
    simp [hj]
  · rintro ⟨e, he, ht⟩
    obtain ⟨b, hb, rfl⟩ := Option.map_eq_some'.mp he
    exact ⟨P, b, hb, ht, by omega⟩

namespace optir

/-- Source `push_usage` touches only `binding_usages`. -/
theorem push_usage_fields {b b' : BlockBuilder} {binding : Nat}
    {usage : bucket.Usage} (h : b.push_usage binding usage = some b') :
    b'.ops = b.ops ∧ b'.call_return_usages = b.call_return_usages := by
  unfold BlockBuilder.push_usage at h
  split at h
  · obtain rfl := Option.some.inj h
    exact ⟨rfl, rfl⟩
  · cases h

/-- Defining a non-call operation preserves call-freeness. -/
theorem define_noCalls {b : BlockBuilder} {op : Op} (hop : op.isCall = false)
    (hb : b.NoCalls) : ((b.define op).1).NoCalls := by
  refine ⟨?_, hb.2⟩
  intro o ho
  have ho' : o ∈ b.ops ++ [op] := ho
  rcases List.mem_append.mp ho' with h | h
  · exact hb.1 o h
  · rw [List.mem_singleton.mp h]
    exact hop

/-- Source `compile_pure` emits at most a `Constant` operation, so it preserves
call-freeness. -/
theorem compile_pure_noCalls {b b' : BlockBuilder} {p : hlir.Pure} {r : Nat}
    (h : b.compile_pure p = some (b', r)) (hb : b.NoCalls) : b'.NoCalls := by
  cases p with
  | Binding x =>
    simp only [BlockBuilder.compile_pure, Constant.try_from,
      Option.map_eq_some'] at h
    obtain ⟨v, hv, heq⟩ := h
    injection heq with heq1 heq2
    exact heq1 ▸ hb
  | Label l =>
    simp only [BlockBuilder.compile_pure, Constant.try_from,
      Option.some.injEq] at h
    have hb' : b' = (b.define (.Constant (.Label l))).1 := by rw [h]
    exact hb' ▸ define_noCalls rfl hb
  | Constant c =>
    simp only [BlockBuilder.compile_pure, Constant.try_from,
      Option.some.injEq] at h
    have hb' : b' = (b.define (.Constant (.Numeric c))).1 := by rw [h]
    exact hb' ▸ define_noCalls rfl hb

/-- Source `push_usage` preserves call-freeness. -/
theorem push_usage_noCalls {b b' : BlockBuilder} {binding : Nat}
    {usage : bucket.Usage} (h : b.push_usage binding usage = some b')
    (hb : b.NoCalls) : b'.NoCalls := by
  obtain ⟨h1, h2⟩ := push_usage_fields h
  exact ⟨fun op hop => hb.1 op (h1 ▸ hop), h2 ▸ hb.2⟩

/-- Source `compile_copied` preserves call-freeness. -/
theorem compile_copied_noCalls : ∀ {pures : List hlir.Pure}
    {b b' : BlockBuilder} {rs : List Nat},
    b.compile_copied pures = some (b', rs) → b.NoCalls → b'.NoCalls := by
  intro pures
  induction pures with
  | nil =>
    intro b b' rs h hb
    simp only [BlockBuilder.compile_copied, Option.some.injEq,
      Prod.mk.injEq] at h
    exact h.1 ▸ hb
  | cons p rest ih =>
    intro b b' rs h hb
    simp only [BlockBuilder.compile_copied] at h
    obtain ⟨x, h1, h2⟩ := Option.bind_eq_some.mp h
    obtain ⟨b1, r1⟩ := x
    obtain ⟨y, h2, heq⟩ := Option.map_eq_some'.mp h2
    obtain ⟨b2, rs2⟩ := y
    have hb2 := ih h2 (compile_pure_noCalls h1 hb)
    injection heq with heq1 heq2
    exact heq1 ▸ hb2

/-- The `compile_add` fold preserves call-freeness (only `Constant` and
`Add` operations are defined). -/
theorem compile_add_loop_noCalls : ∀ {rest : List hlir.Pure} {lhs : Nat}
    {b b' : BlockBuilder} {r : Nat},
    b.compile_add_loop lhs rest = some (b', r) → b.NoCalls → b'.NoCalls := by
  intro rest
  induction rest with
  | nil =>
    intro lhs b b' r h hb
    simp only [BlockBuilder.compile_add_loop, Option.some.injEq,
      Prod.mk.injEq] at h
    exact h.1 ▸ hb
  | cons rhs rest ih =>
    intro lhs b b' r h hb
    simp only [BlockBuilder.compile_add_loop] at h
    obtain ⟨⟨b1, r1⟩, h1, h2⟩ := Option.bind_eq_some.mp h
    obtain ⟨b2, h2', h3⟩ := Option.bind_eq_some.mp h2
    obtain ⟨b3, h3', h4⟩ := Option.bind_eq_some.mp h3
    have hb1 := compile_pure_noCalls h1 hb
    have hb2 := push_usage_noCalls h2' hb1
    have hb3 := push_usage_noCalls h3' hb2
    exact ih h4 (define_noCalls rfl hb3)

/-- Source `compile_add` preserves call-freeness. -/
theorem compile_add_noCalls {b b' : BlockBuilder} {lhs : hlir.Pure}
    {rest : List hlir.Pure} {r : Nat}
    (h : b.compile_add lhs rest = some (b', r)) (hb : b.NoCalls) :
    b'.NoCalls := by
  unfold BlockBuilder.compile_add at h
  obtain ⟨⟨b1, l1⟩, h1, h2⟩ := Option.bind_eq_some.mp h
  exact compile_add_loop_noCalls h2 (compile_pure_noCalls h1 hb)

/-- Source `register_all` touches only the alias map. -/
theorem register_all_fields : ∀ (ts rs : List Nat) (b : BlockBuilder),
    (b.register_all ts rs).ops = b.ops ∧
    (b.register_all ts rs).call_return_usages = b.call_return_usages := by
  intro ts
  induction ts with
  | nil => intro rs b; cases rs <;> exact ⟨rfl, rfl⟩
  | cons t ts ih =>
    intro rs b
    cases rs with
    | nil => exact ⟨rfl, rfl⟩
    | cons r rs => exact ih rs (b.register_result t r)

/-- One assignment statement preserves call-freeness (only `Copied`
assignments are lowered; the rest panic). -/
theorem compile_statement_noCalls {b b' : BlockBuilder}
    {assignment : hlir.Statement}
    (h : b.compile_statement assignment = some b') (hb : b.NoCalls) :
    b'.NoCalls := by
  unfold BlockBuilder.compile_statement at h
  cases hv : assignment.value with
  | Copied copied =>
    rw [hv] at h
    obtain ⟨⟨b1, results⟩, h1, heq⟩ := Option.map_eq_some'.mp h
    have hb1 := compile_copied_noCalls h1 hb
    obtain ⟨hops, hcrus⟩ :=
      register_all_fields (assignment.used_bindings.map (·.binding)) results b1
    refine heq ▸ ⟨fun op hop => hb1.1 op (hops ▸ hop), hcrus.trans hb1.2⟩
  | Add lhs rest => rw [hv] at h; cases h
  | Call label params => rw [hv] at h; cases h

/-- The assignment loop preserves call-freeness. -/
theorem compile_assignments_noCalls : ∀ {assigns : List hlir.Statement}
    {b b' : BlockBuilder},
    b.compile_assignments assigns = some b' → b.NoCalls → b'.NoCalls := by
  intro assigns
  induction assigns with
  | nil =>
    intro b b' h hb
    exact (Option.some.inj h) ▸ hb
  | cons assignment rest ih =>
    intro b b' h hb
    simp only [BlockBuilder.compile_assignments] at h
    obtain ⟨b1, h1, h2⟩ := Option.bind_eq_some.mp h
    exact ih h2 (compile_statement_noCalls h1 hb)

/-- The parameter pass of `compile_call` preserves call-freeness. -/
theorem compile_call_params_noCalls : ∀ {params : List hlir.Pure}
    {usage : bucket.Usage} {b b' : BlockBuilder} {ps : List Nat},
    b.compile_call_params usage params = some (b', ps) → b.NoCalls →
      b'.NoCalls := by
  intro params
  induction params with
  | nil =>
    intro usage b b' ps h hb
    simp only [BlockBuilder.compile_call_params, Option.some.injEq,
      Prod.mk.injEq] at h
    exact h.1 ▸ hb
  | cons v rest ih =>
    intro usage b b' ps h hb
    simp only [BlockBuilder.compile_call_params] at h
    obtain ⟨x, h1, h2⟩ := Option.bind_eq_some.mp h
    obtain ⟨b1, p1⟩ := x
    obtain ⟨b2, h2', h3⟩ := Option.bind_eq_some.mp h2
    obtain ⟨y, h3', heq⟩ := Option.map_eq_some'.mp h3
    obtain ⟨b3, ps3⟩ := y
    have hb3 := ih h3' (push_usage_noCalls h2' (compile_pure_noCalls h1 hb))
    injection heq with heq1 heq2
    exact heq1 ▸ hb3

/-- Source `collect_specific` touches only the binding and alias bookkeeping. -/
theorem collect_specific_fields : ∀ (assigns : List hlir.AssignedBinding)
    (definition : bucket.Definition) (b : BlockBuilder),
    ((b.collect_specific definition assigns).1).ops = b.ops ∧
    ((b.collect_specific definition assigns).1).call_return_usages =
      b.call_return_usages := by
  intro assigns
  induction assigns with
  | nil => intro definition b; exact ⟨rfl, rfl⟩
  | cons assign rest ih =>
    intro definition b
    exact ih definition
      (((b.new_binding definition).1).register_result assign.binding
        (b.new_binding definition).2)

/-- Source `alloc_all` touches only the binding bookkeeping. -/
theorem alloc_all_fields : ∀ (count : Nat) (definition : bucket.Definition)
    (b : BlockBuilder),
    ((b.alloc_all definition count)).ops = b.ops ∧
    ((b.alloc_all definition count)).call_return_usages =
      b.call_return_usages := by
  intro count
  induction count with
  | zero => intro definition b; exact ⟨rfl, rfl⟩
  | succ n ih => intro definition b; exact ih definition (b.new_binding definition).1

/-- Shape of a successful `compile_call` from a call-free builder state:
the new op list is a call-free prefix followed by exactly one `Call`
whose `usage_info_index` is 0, and the call bookkeeping list holds
exactly one record carrying the called label. -/
theorem compile_call_shape {b : BlockBuilder} {label : Nat}
    {params : List hlir.Pure} {assigned_usage : AssignedUsage}
    {target_return_count : Nat} {b' : BlockBuilder} {range : BindingRange}
    (h : b.compile_call label params assigned_usage target_return_count =
      some (b', range))
    (hb : b.NoCalls) :
    ∃ pre ps ru rng, (∀ op ∈ pre, op.isCall = false) ∧
      b'.ops = pre ++ [Op.Call label ps 0] ∧
      b'.call_return_usages = [⟨ru, rng, label⟩] := by
  unfold BlockBuilder.compile_call at h
  obtain ⟨x, h1, h2⟩ := Option.bind_eq_some.mp h
  obtain ⟨b1, ps⟩ := x
  have hb1 := compile_call_params_noCalls h1 hb
  cases assigned_usage with
  | Specific used_bindings =>
    set C := b1.collect_specific
      (bucket.Definition.Op
        (((b.usage_for_next_op .Exclusive).index).as_index.getD 0))
      used_bindings with hC
    obtain ⟨hops, hcrus⟩ := collect_specific_fields used_bindings
      (bucket.Definition.Op
        (((b.usage_for_next_op .Exclusive).index).as_index.getD 0)) b1
    rw [← hC] at hops hcrus
    simp only [Option.some.injEq, Prod.mk.injEq] at h2
    obtain ⟨hb', hrng⟩ := h2
    subst hb'
    refine ⟨b1.ops, ps, C.2, ⟨b1.binding_count, C.1.binding_count⟩,
      hb1.1, ?_, ?_⟩
    · show C.1.ops ++ [Op.Call label ps C.1.call_return_usages.length] =
        b1.ops ++ [Op.Call label ps 0]
      rw [hops, hcrus, hb1.2]
      rfl
    · show C.1.call_return_usages ++
          [⟨C.2, ⟨b1.binding_count, C.1.binding_count⟩, label⟩] =
        [⟨C.2, ⟨b1.binding_count, C.1.binding_count⟩, label⟩]
      rw [hcrus, hb1.2]
      rfl
  | All =>
    set A := b1.alloc_all
      (bucket.Definition.Op
        (((b.usage_for_next_op .Exclusive).index).as_index.getD 0))
      target_return_count with hA
    obtain ⟨hops, hcrus⟩ := alloc_all_fields target_return_count
      (bucket.Definition.Op
        (((b.usage_for_next_op .Exclusive).index).as_index.getD 0)) b1
    rw [← hA] at hops hcrus
    simp only [Option.some.injEq, Prod.mk.injEq] at h2
    obtain ⟨hb', hrng⟩ := h2
    subst hb'
    refine ⟨b1.ops, ps, List.range target_return_count,
      ⟨b1.binding_count, A.binding_count⟩, hb1.1, ?_, ?_⟩
    · show A.ops ++ [Op.Call label ps A.call_return_usages.length] =
        b1.ops ++ [Op.Call label ps 0]
      rw [hops, hcrus, hb1.2]
      rfl
    · show A.call_return_usages ++
          [⟨List.range target_return_count,
            ⟨b1.binding_count, A.binding_count⟩, label⟩] =
        [⟨List.range target_return_count,
          ⟨b1.binding_count, A.binding_count⟩, label⟩]
      rw [hcrus, hb1.2]
      rfl

end optir

namespace optir

/-- A call-free builder state has no `Call` operation at any index. -/
theorem noCalls_no_call_at {b : BlockBuilder} (hb : b.NoCalls) (i : Nat)
    (l : Nat) (args : List Nat) (u : Nat) :
    b.ops[i]? = some (Op.Call l args u) → False := by
  intro h
  have hmem := List.getElem?_mem h
  have := hb.1 _ hmem
  simp [Op.isCall] at this

/-- A block released from a call-free builder state vacuously satisfies
the call bookkeeping invariant. -/
theorem noCalls_call_invariant {b2 : BlockBuilder} (hb2 : b2.NoCalls)
    (e2 : CFTransfer) :
    (∀ (i l : Nat) (args : List Nat) (u : Nat),
      (b2.release e2).operations[i]? = some (Op.Call l args u) →
      u < (b2.release e2).call_return_usages.length ∧
      ∃ cru, (b2.release e2).call_return_usages[u]? = some cru ∧
        cru.called_label = l) ∧
    (∀ (i j li : Nat) (ai : List Nat) (ui lj : Nat) (aj : List Nat)
      (uj : Nat), i ≠ j →
      (b2.release e2).operations[i]? = some (Op.Call li ai ui) →
      (b2.release e2).operations[j]? = some (Op.Call lj aj uj) →
      ui ≠ uj) := by
  constructor
  · intro i l args u hi
    exact absurd hi fun hi => noCalls_no_call_at hb2 i l args u hi
  · intro i j li ai ui lj aj uj hne hi hj
    exact absurd hi fun hi => noCalls_no_call_at hb2 i li ai ui hi

/-- In a call-free prefix followed by a single terminal operation, any
`Call` found by index lookup is that terminal operation. -/
theorem call_at_end_position {pre : List Op} {c : Op}
    (hpre : ∀ op ∈ pre, op.isCall = false) {i : Nat} {l : Nat}
    {args : List Nat} {u : Nat}
    (h : (pre ++ [c])[i]? = some (Op.Call l args u)) :
    i = pre.length ∧ c = Op.Call l args u := by
  rcases Nat.lt_trichotomy i pre.length with hlt | heq | hgt
  · exfalso
    rw [List.getElem?_append_left hlt] at h
    have := hpre _ (List.getElem?_mem h)
    simp [Op.isCall] at this
  · subst heq
    rw [List.getElem?_concat_length] at h
    exact ⟨rfl, Option.some.inj h⟩
  · exfalso
    have hlen : (pre ++ [c]).length ≤ i := by
      simp only [List.length_append, List.length_singleton]
      omega
    rw [List.getElem?_eq_none_iff.mpr hlen] at h
    cases h

end optir

/-- Claim C10: in every block produced by translation, each `Call`
operation has a `usage_info_index` that is a valid index into
`call_return_usages`, the record found there carries the label of the call itself, and distinct `Call` operations carry distinct indices.  (A
successfully translated block contains at most one `Call`: assignment
lowering never emits calls, and only a tail-call terminator does, with
`usage_info_index` equal to the length of the bookkeeping list at push
time.) -/
theorem C10_call_usage_info_consistent (hlir_block : hlir.Block)
    (block_return_counts : List Nat) (blk : optir.Block)
    (h : optir.Block.from_hlir_block hlir_block block_return_counts = some blk) :
    (∀ (i l : Nat) (args : List Nat) (u : Nat),
      blk.operations[i]? = some (optir.Op.Call l args u) →
      u < blk.call_return_usages.length ∧
      ∃ cru, blk.call_return_usages[u]? = some cru ∧ cru.called_label = l) ∧
    (∀ (i j li : Nat) (ai : List Nat) (ui lj : Nat) (aj : List Nat)
      (uj : Nat), i ≠ j →
      blk.operations[i]? = some (optir.Op.Call li ai ui) →
      blk.operations[j]? = some (optir.Op.Call lj aj uj) → ui ≠ uj) := by
  unfold optir.Block.from_hlir_block at h
  obtain ⟨b1, hassigns, hend⟩ := Option.bind_eq_some.mp h
  obtain ⟨y, hend2, hrel⟩ := Option.map_eq_some'.mp hend
  obtain ⟨b2, e2⟩ := y
  subst hrel
  have hb1 : b1.NoCalls :=
    optir.compile_assignments_noCalls hassigns ⟨by simp, rfl⟩
  -- The released block exposes the builder fields directly.
  have hops : (b2.release e2).operations = b2.ops := rfl
  have hcrus : (b2.release e2).call_return_usages = b2.call_return_usages := rfl
  cases hE : hlir_block.end_ with
  | TailValue value =>
    cases hV : value with
    | Copied pures =>
      rw [hE, hV] at hend2
      simp only [optir.BlockBuilder.compile_end] at hend2
      obtain ⟨z, hz, heq⟩ := Option.map_eq_some'.mp hend2
      obtain ⟨b3, rs3⟩ := z
      injection heq with heq1 heq2
      subst heq1
      have hb2 : b3.NoCalls := optir.compile_copied_noCalls hz hb1
      exact optir.noCalls_call_invariant hb2 e2
    | Add lhs rest =>
      rw [hE, hV] at hend2
      simp only [optir.BlockBuilder.compile_end] at hend2
      obtain ⟨z, hz, heq⟩ := Option.map_eq_some'.mp hend2
      obtain ⟨b3, r3⟩ := z
      injection heq with heq1 heq2
      subst heq1
      have hb2 : b3.NoCalls := optir.compile_add_noCalls hz hb1
      exact optir.noCalls_call_invariant hb2 e2
    | Call label params =>
      rw [hE, hV] at hend2
      simp only [optir.BlockBuilder.compile_end] at hend2
      obtain ⟨count, hcount, hcc⟩ := Option.bind_eq_some.mp hend2
      obtain ⟨z, hz, heq⟩ := Option.map_eq_some'.mp hcc
      obtain ⟨b3, rng3⟩ := z
      injection heq with heq1 heq2
      subst heq1
      obtain ⟨pre, ps, ru, rng, hpre, hops3, hcrus3⟩ :=
        optir.compile_call_shape hz hb1
      constructor
      · intro i l args u hi
        rw [hops, hops3] at hi
        obtain ⟨hi', hc⟩ := optir.call_at_end_position hpre hi
        injection hc with hc1 hc2 hc3
        subst hc1
        subst hc3
        rw [hcrus, hcrus3]
        exact ⟨by simp, ⟨ru, rng, label⟩, by simp, rfl⟩
      · intro i j li ai ui lj aj uj hne hi hj
        rw [hops, hops3] at hi hj
        obtain ⟨hi', _⟩ := optir.call_at_end_position hpre hi
        obtain ⟨hj', _⟩ := optir.call_at_end_position hpre hj
        exact absurd (hi'.trans hj'.symm) hne
  | ConditionalBranch condition label_if_true label_if_false =>
    rw [hE] at hend2
    simp only [optir.BlockBuilder.compile_end] at hend2
    obtain ⟨z, hz, heq⟩ := Option.map_eq_some'.mp hend2
    obtain ⟨b3, c3⟩ := z
    injection heq with heq1 heq2
    subst heq1
    have hb2 : b3.NoCalls := optir.compile_pure_noCalls hz hb1
    exact optir.noCalls_call_invariant hb2 e2
  | BlockIsEmpty =>
    rw [hE] at hend2
    cases hend2

/-- Claim C10 (witness): the invariant theorem applied to the concrete
tail-call block, whose translation succeeds and contains one `Call`
operation with `usage_info_index` 0 pointing at the single bookkeeping
record for label 1. -/
theorem C10_call_usage_info_witness :
    optir.Block.from_hlir_block examples.tail_call_block [0, 1] =
      some examples.tail_call_translated ∧
    ((∀ (i l : Nat) (args : List Nat) (u : Nat),
        examples.tail_call_translated.operations[i]? =
          some (optir.Op.Call l args u) →
        u < examples.tail_call_translated.call_return_usages.length ∧
        ∃ cru, examples.tail_call_translated.call_return_usages[u]? =
          some cru ∧ cru.called_label = l) ∧
      (∀ (i j li : Nat) (ai : List Nat) (ui lj : Nat) (aj : List Nat)
        (uj : Nat), i ≠ j →
        examples.tail_call_translated.operations[i]? =
          some (optir.Op.Call li ai ui) →
        examples.tail_call_translated.operations[j]? =
          some (optir.Op.Call lj aj uj) → ui ≠ uj)) :=
  ⟨rfl, C10_call_usage_info_consistent examples.tail_call_block [0, 1]
    examples.tail_call_translated rfl⟩
